import Mathlib

/-!
Verification of `strephit/annotation/create_crowdflower_input.py`.

The Python module converts sentence records (with linked entities) and
frame data into CrowdFlower data units and writes them as a CSV
spreadsheet.  We embed the two functions `prepare_crowdflower_input`
and `write_input_spreadsheet` shallowly:

* Python dicts used as records become structures with `Option` fields
  (a field is `none` when the key is absent); the `d[k]` subscript that
  raises `KeyError` on a missing key becomes an `Except String` value.
* The frame-data dict becomes an association list, `dict.get` becomes
  `List.lookup`.
* Data units are association lists from column name to value; the final
  `.encode('utf-8')` comprehension maps every value to its UTF-8 bytes.
* `'%02d' % i` and `str(i)` become a structural decimal renderer,
  `.replace('_', ' ')` a character map, `re.search('chunk_[0-9]{2}$', h)`
  a suffix test, `set` union a `dedup`, and `list.sort()` a stable
  `insertionSort` with byte-wise (code-point) lexicographic comparison,
  matching Python's string ordering.
-/

namespace CrowdflowerInput

/-- DBpedia ontology type URI for generic places (`PLACE_TYPE` in the source). -/
def PLACE_TYPE : String := "http://dbpedia.org/ontology/Place"

/-- A linked entity record: a dict that may or may not carry the
`chunk` and `types` keys (`none` models an absent key). -/
structure Entity where
  chunk : Option String := none
  types : Option (List String) := none
deriving Repr, DecidableEq

/-- A sentence record: a dict that may or may not carry the `id`,
`text`, `lu` and `linked_entities` keys. -/
structure Sentence where
  id : Option Int := none
  text : Option String := none
  lu : Option String := none
  linked_entities : Option (List Entity) := none
deriving Repr, DecidableEq

/-- A frame element record (`{"fe": name}`). -/
structure FE where
  fe : String
deriving Repr, DecidableEq

/-- A frame-data entry (`{"frame": ..., "core_fes": [...], "extra_fes": [...]}`). -/
structure Frame where
  frame : String
  core_fes : List FE
  extra_fes : List FE
deriving Repr, DecidableEq

/-- The frame-data mapping from lexical-unit name to frame entry. -/
abbrev FrameData := List (String × Frame)

/-- A data unit before the final UTF-8 encoding step: an insertion-ordered
dict from column name to string value. -/
abbrev StrDict := List (String × String)

/-- An emitted data unit: columns mapped to UTF-8 byte strings. -/
abbrev DataUnit := List (String × List Nat)

/-- UTF-8 encoding of one Unicode scalar value (standard 1-4 byte layout);
embeds what Python's `str.encode('utf-8')` does per character. -/
def utf8EncodeChar (c : Char) : List Nat :=
  let v := c.toNat
  if v < 0x80 then [v]
  else if v < 0x800 then [0xC0 + v / 64, 0x80 + v % 64]
  else if v < 0x10000 then [0xE0 + v / 4096, 0x80 + (v / 64) % 64, 0x80 + v % 64]
  else [0xF0 + v / 262144, 0x80 + (v / 4096) % 64, 0x80 + (v / 64) % 64, 0x80 + v % 64]

/-- UTF-8 encoding of a string (`v.encode('utf-8')` in the source). -/
def utf8Encode (s : String) : List Nat :=
  s.data.flatMap utf8EncodeChar

/-- The dict comprehension `{k: v.encode('utf-8') for k, v in data_unit.items()}`. -/
def encodeUnit (u : StrDict) : DataUnit :=
  u.map (fun kv => (kv.1, utf8Encode kv.2))

/-- The decimal digit characters used by `%d` formatting. -/
def digitChar (d : Nat) : Char :=
  match d with
  | 0 => '0' | 1 => '1' | 2 => '2' | 3 => '3' | 4 => '4'
  | 5 => '5' | 6 => '6' | 7 => '7' | 8 => '8' | 9 => '9' | _ => '*'

/-- Digits of `n` in base 10, most significant first; `fuel` bounds the
recursion structurally (any `fuel > n` gives the true digit list). -/
def decimalAux : Nat → Nat → List Char
  | 0, _ => []
  | fuel+1, n =>
    if n < 10 then [digitChar n]
    else decimalAux fuel (n / 10) ++ [digitChar (n % 10)]

/-- Decimal rendering of a natural number (`'%d' % n` for `n ≥ 0`). -/
def decimalNat (n : Nat) : String := ⟨decimalAux (n+1) n⟩

/-- Decimal rendering of an integer (Python's `str(i)` on an `int`). -/
def decimalInt (i : Int) : String :=
  if i < 0 then "-" ++ decimalNat i.natAbs else decimalNat i.toNat

/-- The `'%02d' % n` format: zero-pad to two digits. -/
def fmt02 (n : Nat) : String :=
  if n < 10 then "0" ++ decimalNat n else decimalNat n

/-- `fe['fe'].replace('_', ' ')` for the single-character pattern: every
underscore character becomes a space. -/
def replaceUnderscores (s : String) : String :=
  ⟨s.data.map (fun c => if c = '_' then ' ' else c)⟩

/-- The non-filtering branch `chunks = [entity['chunk'] for entity in
linked_entities]`; a missing `chunk` key raises `KeyError`. -/
def allChunks : List Entity → Except String (List String)
  | [] => .ok []
  | e :: rest =>
    match e.chunk with
    | none => .error "KeyError: chunk"
    | some c =>
      match allChunks rest with
      | .error err => .error err
      | .ok cs => .ok (c :: cs)

/-- The filtering branch: drop every entity whose `types` contain
`PLACE_TYPE`; missing `chunk` or `types` keys raise `KeyError`. -/
def chunksFiltered : List Entity → Except String (List String)
  | [] => .ok []
  | e :: rest =>
    match e.chunk with
    | none => .error "KeyError: chunk"
    | some chunk =>
      match e.types with
      | none => .error "KeyError: types"
      | some types =>
        match chunksFiltered rest with
        | .error err => .error err
        | .ok cs => .ok (if PLACE_TYPE ∈ types then cs else chunk :: cs)

/-- The loop `for i, fe in enumerate(fes): data_unit['fe_%02d' % i] = fe['fe'].replace('_', ' ')`. -/
def feEntries (fes : List FE) : StrDict :=
  fes.enum.map (fun p => ("fe_" ++ fmt02 p.1, replaceUnderscores p.2.fe))

/-- The loop `for j, chunk in enumerate(chunks): data_unit['chunk_%02d' % j] = chunk`. -/
def chunkEntries (chunks : List String) : StrDict :=
  chunks.enum.map (fun p => ("chunk_" ++ fmt02 p.1, p.2))

/-- The body of the `for sentence in sentences` loop of
`prepare_crowdflower_input`: `.ok none` models a `continue` (sentence
skipped after a log line), `.ok (some u)` a data unit `u` appended (before
UTF-8 encoding), `.error` a `KeyError` escaping the loop. -/
def processSentence (frame_data : FrameData) (filter_places : Bool)
    (sentence : Sentence) : Except String (Option StrDict) :=
  match sentence.lu with
  | none => .error "KeyError: lu"
  | some lu =>
    match sentence.id with
    | none => .error "KeyError: id"
    | some sentence_id =>
      match sentence.text with
      | none => .error "KeyError: text"
      | some text =>
        let data_unit : StrDict :=
          [("id", decimalInt sentence_id), ("sentence", text), ("lu", lu)]
        match sentence.linked_entities with
        | none => .ok none
        | some linked_entities =>
          if linked_entities.isEmpty then .ok none
          else
            match (if filter_places then chunksFiltered linked_entities
                   else allChunks linked_entities) with
            | .error err => .error err
            | .ok chunks =>
              if chunks.isEmpty then .ok none
              else
                match List.lookup lu frame_data with
                | none => .ok none
                | some frame =>
                  .ok (some ((data_unit ++ [("frame", frame.frame)])
                    ++ feEntries (frame.core_fes ++ frame.extra_fes)
                    ++ chunkEntries chunks))

/-- `prepare_crowdflower_input(sentences, frame_data, filter_places)`:
convert each sentence in order, appending the UTF-8 encoded data unit of
every surviving sentence; a `KeyError` aborts the whole batch. -/
def prepare_crowdflower_input (sentences : List Sentence)
    (frame_data : FrameData) (filter_places : Bool) :
    Except String (List DataUnit) :=
  match sentences with
  | [] => .ok []
  | s :: rest =>
    match processSentence frame_data filter_places s with
    | .error err => .error err
    | .ok none => prepare_crowdflower_input rest frame_data filter_places
    | .ok (some u) =>
      match prepare_crowdflower_input rest frame_data filter_places with
      | .error err => .error err
      | .ok tail => .ok (encodeUnit u :: tail)

/-- `re.search('chunk_[0-9]{2}$', header)`: does the string end with
`chunk_` followed by exactly two decimal digits? (Checked on the
reversed character list: two digits, then `_knuhc`.) -/
def matchesChunkGold (s : String) : Bool :=
  let r := s.data.reverse
  ((r.drop 2).take 6 == ['_', 'k', 'n', 'u', 'h', 'c']) && ((r.take 2).all Char.isDigit)

/-- Byte-wise (code-point) lexicographic `≤` on character lists; this is
how Python compares strings in `list.sort()`. -/
def charListLe : List Char → List Char → Bool
  | [], _ => true
  | _ :: _, [] => false
  | a :: as, b :: bs =>
    if a.toNat < b.toNat then true
    else if a.toNat = b.toNat then charListLe as bs
    else false

/-- Lexicographic string comparison used by `headers.sort()`. -/
def strLe (a b : String) : Bool := charListLe a.data b.data

/-- `set([k for d in data_units for k in d.keys()])`: the union of all
keys across all data units (as a duplicate-free list). -/
def collectKeys (data_units : List DataUnit) : List String :=
  (data_units.flatMap (fun d => d.map Prod.fst)).dedup

/-- The relation `strLe` as a `Prop`, for use with `insertionSort`. -/
def strLeR (a b : String) : Prop := strLe a b = true

instance : DecidableRel strLeR := fun a b => decEq (strLe a b) true

/-- The header computation of `write_input_spreadsheet`: add `_golden`,
add a `<h>_gold` companion for every header matching
`chunk_[0-9]{2}$`, and sort lexicographically (`headers.sort()`). -/
def write_headers (data_units : List DataUnit) : List String :=
  let headers := List.insert "_golden" (collectKeys data_units)
  let gold_columns := (headers.filter matchesChunkGold).map (fun h => h ++ "_gold")
  List.insertionSort strLeR (headers ++ gold_columns)

/-- The CSV produced by `csv.DictWriter`: one header row, then one row
per data unit; a cell is `none` when the unit lacks that header's key
(DictWriter then writes its blank `restval`). -/
structure CSVOut where
  header : List String
  rows : List (List (Option (List Nat)))
deriving Repr, DecidableEq

/-- `write_input_spreadsheet(data_units, outfile)`: compute the headers,
write the header row and one row per unit, return status code 0. -/
def write_input_spreadsheet (data_units : List DataUnit) : CSVOut × Nat :=
  let headers := write_headers data_units
  (⟨headers, data_units.map (fun d => headers.map (fun h => List.lookup h d))⟩, 0)

/-! ### Helper lemmas about the lexicographic comparison -/

theorem charListLe_total (a b : List Char) :
    charListLe a b = true ∨ charListLe b a = true := by
  induction a generalizing b with
  | nil => exact Or.inl rfl
  | cons x xs ih =>
    cases b with
    | nil => exact Or.inr rfl
    | cons y ys =>
      simp only [charListLe]
      rcases Nat.lt_trichotomy x.toNat y.toNat with h | h | h
      · left; rw [if_pos h]
      · rw [if_neg (by omega), if_pos h, if_neg (by omega), if_pos h.symm]
        exact ih ys
      · right; rw [if_pos h]

theorem charListLe_trans (a b c : List Char)
    (hab : charListLe a b = true) (hbc : charListLe b c = true) :
    charListLe a c = true := by
  induction a generalizing b c with
  | nil => rfl
  | cons x xs ih =>
    cases b with
    | nil => simp [charListLe] at hab
    | cons y ys =>
      cases c with
      | nil => simp [charListLe] at hbc
      | cons z zs =>
        simp only [charListLe] at hab hbc ⊢
        by_cases h1 : x.toNat < y.toNat
        · by_cases h2 : y.toNat < z.toNat
          · rw [if_pos (by omega)]
          · rw [if_neg h2] at hbc
            by_cases h3 : y.toNat = z.toNat
            · rw [if_pos (by omega)]
            · rw [if_neg h3] at hbc; simp at hbc
        · rw [if_neg h1] at hab
          by_cases h4 : x.toNat = y.toNat
          · rw [if_pos h4] at hab
            by_cases h2 : y.toNat < z.toNat
            · rw [if_pos (by omega)]
            · rw [if_neg h2] at hbc
              by_cases h3 : y.toNat = z.toNat
              · rw [if_pos h3] at hbc
                rw [if_neg (by omega), if_pos (by omega)]
                exact ih ys zs hab hbc
              · rw [if_neg h3] at hbc; simp at hbc
          · rw [if_neg h4] at hab; simp at hab

instance : IsTotal String strLeR :=
  ⟨fun a b => charListLe_total a.data b.data⟩

instance : IsTrans String strLeR :=
  ⟨fun a b c hab hbc => charListLe_trans a.data b.data c.data hab hbc⟩

/-! ### Column-name prefix tests -/

/-- Does `p` occur at the start of `s`?  Used to classify the column
families `fe_NN` and `chunk_NN` of a data unit. -/
def strStarts (p s : String) : Bool := p.data.isPrefixOf s.data

theorem strStarts_fe_fe (x : String) : strStarts "fe_" ("fe_" ++ x) = true := by
  simp [strStarts]

theorem strStarts_fe_chunk (x : String) : strStarts "fe_" ("chunk_" ++ x) = false := by
  simp [strStarts, List.isPrefixOf]

theorem strStarts_chunk_chunk (x : String) : strStarts "chunk_" ("chunk_" ++ x) = true := by
  simp [strStarts]

theorem strStarts_chunk_fe (x : String) : strStarts "chunk_" ("fe_" ++ x) = false := by
  simp [strStarts, List.isPrefixOf]

/-! ### Chunk collection lemmas -/

theorem allChunks_ok {ents : List Entity}
    (h : ∀ e ∈ ents, e.chunk.isSome) :
    allChunks ents = .ok (ents.map (fun e => e.chunk.getD "")) := by
  induction ents with
  | nil => rfl
  | cons e rest ih =>
    have he := h e (by simp)
    rcases hc : e.chunk with _ | c
    · rw [hc] at he; simp at he
    · simp only [allChunks, hc, ih (fun e' he' => h e' (by simp [he'])), List.map_cons,
        Option.getD_some]

theorem allChunks_length {ents : List Entity} {chunks : List String}
    (h : allChunks ents = .ok chunks) : chunks.length = ents.length := by
  induction ents generalizing chunks with
  | nil => simp only [allChunks] at h; cases h; rfl
  | cons e rest ih =>
    simp only [allChunks] at h
    rcases hc : e.chunk with _ | c <;> rw [hc] at h
    · cases h
    · rcases hr : allChunks rest with err | cs <;> rw [hr] at h
      · cases h
      · cases h; simp [ih hr]

theorem chunksFiltered_all_places {ents : List Entity}
    (h : ∀ e ∈ ents, e.chunk.isSome ∧ ∃ ts, e.types = some ts ∧ PLACE_TYPE ∈ ts) :
    chunksFiltered ents = .ok [] := by
  induction ents with
  | nil => rfl
  | cons e rest ih =>
    obtain ⟨hc, ts, hts, hp⟩ := h e (by simp)
    rcases hc' : e.chunk with _ | c
    · rw [hc'] at hc; simp at hc
    · simp only [chunksFiltered, hc', hts, ih (fun e' he' => h e' (by simp [he']))]
      simp [hp]

theorem chunksFiltered_ok {ents : List Entity}
    (h : ∀ e ∈ ents, e.chunk.isSome ∧ e.types.isSome) :
    ∃ cs, chunksFiltered ents = .ok cs := by
  induction ents with
  | nil => exact ⟨[], rfl⟩
  | cons e rest ih =>
    obtain ⟨hc, ht⟩ := h e (by simp)
    obtain ⟨cs, hcs⟩ := ih (fun e' he' => h e' (by simp [he']))
    rcases hc' : e.chunk with _ | c
    · rw [hc'] at hc; simp at hc
    · rcases ht' : e.types with _ | ts
      · rw [ht'] at ht; simp at ht
      · exact ⟨if PLACE_TYPE ∈ ts then cs else c :: cs,
          by simp only [chunksFiltered, hc', ht', hcs]⟩

/-! ### Inversion of the per-sentence processing -/

theorem processSentence_ok_some {fd : FrameData} {fp : Bool} {s : Sentence} {u : StrDict}
    (h : processSentence fd fp s = .ok (some u)) :
    ∃ lu sid text ents chunks frame,
      s.lu = some lu ∧ s.id = some sid ∧ s.text = some text ∧
      s.linked_entities = some ents ∧ ents ≠ [] ∧
      (if fp then chunksFiltered ents else allChunks ents) = .ok chunks ∧
      chunks ≠ [] ∧ List.lookup lu fd = some frame ∧
      u = ("id", decimalInt sid) :: ("sentence", text) :: ("lu", lu) ::
            ("frame", frame.frame) ::
            (feEntries (frame.core_fes ++ frame.extra_fes) ++ chunkEntries chunks) := by
  simp only [processSentence] at h
  rcases hlu : s.lu with _ | lu <;> simp only [hlu] at h
  · cases h
  rcases hid : s.id with _ | sid <;> simp only [hid] at h
  · cases h
  rcases htext : s.text with _ | text <;> simp only [htext] at h
  · cases h
  rcases hents : s.linked_entities with _ | ents <;> simp only [hents] at h
  · cases h
  by_cases hne : ents.isEmpty
  · rw [if_pos hne] at h; cases h
  rw [if_neg hne] at h
  rcases hch : (if fp then chunksFiltered ents else allChunks ents) with err | chunks <;>
    simp only [hch] at h
  · cases h
  by_cases hce : chunks.isEmpty
  · rw [if_pos hce] at h; cases h
  rw [if_neg hce] at h
  rcases hfr : List.lookup lu fd with _ | frame <;> simp only [hfr] at h
  · cases h
  refine ⟨lu, sid, text, ents, chunks, frame, rfl, rfl, rfl, rfl, ?_, hch, ?_, hfr, ?_⟩
  · simpa [List.isEmpty_iff] using hne
  · simpa [List.isEmpty_iff] using hce
  · cases h
    simp

/-! ### Evaluation lemmas for the per-sentence processing -/

theorem processSentence_no_entities {fd : FrameData} {fp : Bool} {s : Sentence}
    {lu : String} {sid : Int} {text : String}
    (hlu : s.lu = some lu) (hid : s.id = some sid) (htext : s.text = some text)
    (hents : s.linked_entities = none) :
    processSentence fd fp s = .ok none := by
  simp only [processSentence, hlu, hid, htext, hents]

theorem processSentence_emit {fd : FrameData} {fp : Bool} {s : Sentence}
    {lu : String} {sid : Int} {text : String} {ents : List Entity}
    {chunks : List String} {frame : Frame}
    (hlu : s.lu = some lu) (hid : s.id = some sid) (htext : s.text = some text)
    (hents : s.linked_entities = some ents) (hne : ents ≠ [])
    (hch : (if fp then chunksFiltered ents else allChunks ents) = .ok chunks)
    (hce : chunks ≠ []) (hfr : List.lookup lu fd = some frame) :
    processSentence fd fp s =
      .ok (some (("id", decimalInt sid) :: ("sentence", text) :: ("lu", lu) ::
        ("frame", frame.frame) ::
        (feEntries (frame.core_fes ++ frame.extra_fes) ++ chunkEntries chunks))) := by
  simp only [processSentence, hlu, hid, htext, hents, hch, hfr,
    if_neg (by simpa [List.isEmpty_iff] using hne),
    if_neg (by simpa [List.isEmpty_iff] using hce)]
  simp [hne, hce]

theorem processSentence_empty_chunks {fd : FrameData} {fp : Bool} {s : Sentence}
    {lu : String} {sid : Int} {text : String} {ents : List Entity}
    (hlu : s.lu = some lu) (hid : s.id = some sid) (htext : s.text = some text)
    (hents : s.linked_entities = some ents)
    (hch : (if fp then chunksFiltered ents else allChunks ents) = .ok []) :
    processSentence fd fp s = .ok none := by
  by_cases hne : ents.isEmpty
  · simp only [processSentence, hlu, hid, htext, hents, if_pos hne]
  · simp only [processSentence, hlu, hid, htext, hents, if_neg hne, hch, List.isEmpty_nil]
    simp

theorem processSentence_no_frame {fd : FrameData} {fp : Bool} {s : Sentence}
    {lu : String} {sid : Int} {text : String}
    (hlu : s.lu = some lu) (hid : s.id = some sid) (htext : s.text = some text)
    (hwf : ∀ ents, s.linked_entities = some ents →
      ∀ e ∈ ents, e.chunk.isSome ∧ e.types.isSome)
    (hfr : List.lookup lu fd = none) :
    processSentence fd fp s = .ok none := by
  rcases hents : s.linked_entities with _ | ents
  · exact processSentence_no_entities hlu hid htext hents
  by_cases hne : ents.isEmpty
  · simp only [processSentence, hlu, hid, htext, hents, if_pos hne]
  have hch : ∃ cs, (if fp then chunksFiltered ents else allChunks ents) = .ok cs := by
    cases fp
    · refine ⟨ents.map (fun e => e.chunk.getD ""), ?_⟩
      simpa using allChunks_ok (fun e he => (hwf ents hents e he).1)
    · simpa using chunksFiltered_ok (hwf ents hents)
  obtain ⟨cs, hch⟩ := hch
  by_cases hce : cs.isEmpty
  · simp only [processSentence, hlu, hid, htext, hents, if_neg hne, hch, if_pos hce]
  · simp only [processSentence, hlu, hid, htext, hents, if_neg hne, hch, if_neg hce, hfr]

/-! ### The conversion loop -/

theorem prepare_cons_none {s : Sentence} {rest : List Sentence} {fd : FrameData} {fp : Bool}
    (h : processSentence fd fp s = .ok none) :
    prepare_crowdflower_input (s :: rest) fd fp = prepare_crowdflower_input rest fd fp := by
  simp only [prepare_crowdflower_input, h]

theorem mem_prepare {sentences : List Sentence} {fd : FrameData} {fp : Bool}
    {units : List DataUnit}
    (hp : prepare_crowdflower_input sentences fd fp = .ok units) :
    ∀ u ∈ units, ∃ s ∈ sentences, ∃ v,
      processSentence fd fp s = .ok (some v) ∧ u = encodeUnit v := by
  induction sentences generalizing units with
  | nil =>
    simp only [prepare_crowdflower_input] at hp
    cases hp
    intro u hu
    simp at hu
  | cons s rest ih =>
    simp only [prepare_crowdflower_input] at hp
    rcases hps : processSentence fd fp s with err | _ | v <;> simp only [hps] at hp
    · cases hp
    · intro u hu
      obtain ⟨s', hs', hv⟩ := ih hp u hu
      exact ⟨s', List.mem_cons_of_mem _ hs', hv⟩
    · rcases hr : prepare_crowdflower_input rest fd fp with err | tail <;>
        simp only [hr] at hp
      · cases hp
      cases hp
      intro u hu
      rcases List.mem_cons.mp hu with h1 | h1
      · exact ⟨s, List.mem_cons_self _ _, v, hps, h1⟩
      · obtain ⟨s', hs', hv⟩ := ih hr u h1
        exact ⟨s', List.mem_cons_of_mem _ hs', hv⟩

/-! ### Column-family classification of an emitted unit -/

theorem encodeUnit_filter_fe (sid : Int) (text lu : String) (frame : Frame)
    (chunks : List String) :
    (encodeUnit (("id", decimalInt sid) :: ("sentence", text) :: ("lu", lu) ::
        ("frame", frame.frame) ::
        (feEntries (frame.core_fes ++ frame.extra_fes) ++ chunkEntries chunks))).filter
        (fun kv => strStarts "fe_" kv.1)
      = (frame.core_fes ++ frame.extra_fes).enum.map
          (fun p => ("fe_" ++ fmt02 p.1, utf8Encode (replaceUnderscores p.2.fe))) := by
  have h1 : strStarts "fe_" "id" = false := by decide
  have h2 : strStarts "fe_" "sentence" = false := by decide
  have h3 : strStarts "fe_" "lu" = false := by decide
  have h4 : strStarts "fe_" "frame" = false := by decide
  simp only [encodeUnit, feEntries, chunkEntries, List.map_cons, List.map_append,
    List.map_map, List.filter_cons, h1, h2, h3, h4, Bool.false_eq_true, if_false,
    List.filter_append]
  rw [List.filter_eq_self.mpr, List.filter_eq_nil_iff.mpr]
  · simp [Function.comp]
  · intro kv hkv
    obtain ⟨p, _, hp⟩ := List.mem_map.mp hkv
    simp only [← hp, Function.comp, strStarts_fe_chunk]
    simp
  · intro kv hkv
    obtain ⟨p, _, hp⟩ := List.mem_map.mp hkv
    simp [← hp, Function.comp, strStarts_fe_fe]

theorem encodeUnit_filter_chunk (sid : Int) (text lu : String) (frame : Frame)
    (chunks : List String) :
    (encodeUnit (("id", decimalInt sid) :: ("sentence", text) :: ("lu", lu) ::
        ("frame", frame.frame) ::
        (feEntries (frame.core_fes ++ frame.extra_fes) ++ chunkEntries chunks))).filter
        (fun kv => strStarts "chunk_" kv.1)
      = chunks.enum.map (fun p => ("chunk_" ++ fmt02 p.1, utf8Encode p.2)) := by
  have h1 : strStarts "chunk_" "id" = false := by decide
  have h2 : strStarts "chunk_" "sentence" = false := by decide
  have h3 : strStarts "chunk_" "lu" = false := by decide
  have h4 : strStarts "chunk_" "frame" = false := by decide
  simp only [encodeUnit, feEntries, chunkEntries, List.map_cons, List.map_append,
    List.map_map, List.filter_cons, h1, h2, h3, h4, Bool.false_eq_true, if_false,
    List.filter_append]
  rw [List.filter_eq_nil_iff.mpr, List.filter_eq_self.mpr]
  · simp [Function.comp]
  · intro kv hkv
    obtain ⟨p, _, hp⟩ := List.mem_map.mp hkv
    simp [← hp, Function.comp, strStarts_chunk_chunk]
  · intro kv hkv
    obtain ⟨p, _, hp⟩ := List.mem_map.mp hkv
    simp only [← hp, Function.comp, strStarts_chunk_fe]
    simp

/-! ### Decimal rendering lemmas -/

theorem decimalAux_length_pos {fuel n : Nat} (h : n < fuel) :
    1 ≤ (decimalAux fuel n).length := by
  cases fuel with
  | zero => omega
  | succ f =>
    simp only [decimalAux]
    by_cases h10 : n < 10
    · simp [h10]
    · simp [h10]

theorem decimalAux_length_ge2 {fuel n : Nat} (h : n < fuel) (h10 : 10 ≤ n) :
    2 ≤ (decimalAux fuel n).length := by
  cases fuel with
  | zero => omega
  | succ f =>
    simp only [decimalAux, if_neg (by omega : ¬ n < 10)]
    have h1 : n / 10 < f := by omega
    have := decimalAux_length_pos h1
    simp only [List.length_append, List.length_cons, List.length_nil]
    omega

theorem decimalAux_length_ge3 {fuel n : Nat} (h : n < fuel) (h100 : 100 ≤ n) :
    3 ≤ (decimalAux fuel n).length := by
  cases fuel with
  | zero => omega
  | succ f =>
    simp only [decimalAux, if_neg (by omega : ¬ n < 10)]
    have h1 : n / 10 < f := by omega
    have := decimalAux_length_ge2 h1 (by omega)
    simp only [List.length_append, List.length_cons, List.length_nil]
    omega

theorem decimalAux_digits {fuel n : Nat} :
    ∀ c ∈ decimalAux fuel n, ∃ d, d < 10 ∧ c = digitChar d := by
  induction fuel generalizing n with
  | zero => simp [decimalAux]
  | succ f ih =>
    simp only [decimalAux]
    by_cases h10 : n < 10
    · simp only [if_pos h10]
      intro c hc
      rcases List.mem_singleton.mp hc with rfl
      exact ⟨n, h10, rfl⟩
    · simp only [if_neg h10]
      intro c hc
      rcases List.mem_append.mp hc with hc | hc
      · exact ih c hc
      · rcases List.mem_singleton.mp hc with rfl
        exact ⟨n % 10, Nat.mod_lt _ (by omega), rfl⟩

theorem fmt02_ge100_no_gold {n : Nat} (h : 100 ≤ n) :
    matchesChunkGold ("chunk_" ++ fmt02 n) = false := by
  have hfmt : fmt02 n = decimalNat n := if_neg (by omega)
  rw [hfmt]
  have hdata : ("chunk_" ++ decimalNat n).data = "chunk_".data ++ decimalAux (n+1) n := rfl
  have hlen : 3 ≤ (decimalAux (n+1) n).length := decimalAux_length_ge3 (by omega) h
  simp only [matchesChunkGold, hdata, List.reverse_append]
  rcases h3 : (decimalAux (n+1) n).reverse with _ | ⟨a, _ | ⟨b, _ | ⟨c, t⟩⟩⟩
  · have := congrArg List.length h3
    simp only [List.length_reverse, List.length_nil, List.length_cons] at this
    omega
  · have := congrArg List.length h3
    simp only [List.length_reverse, List.length_nil, List.length_cons] at this
    omega
  · have := congrArg List.length h3
    simp only [List.length_reverse, List.length_nil, List.length_cons] at this
    omega
  · have hc : c ∈ decimalAux (n+1) n := by
      have : c ∈ (decimalAux (n+1) n).reverse := by rw [h3]; simp
      simpa using this
    obtain ⟨d, hd, rfl⟩ := decimalAux_digits c hc
    have hne : digitChar d ≠ '_' := by
      rcases d with _|_|_|_|_|_|_|_|_|_|d <;> first | decide | (exfalso; omega)
    have hrev : ("chunk_".data).reverse = ['_', 'k', 'n', 'u', 'h', 'c'] := by decide
    rw [hrev]
    simp only [List.cons_append, List.drop_succ_cons, List.drop_zero, List.take_succ_cons]
    rw [Bool.and_eq_false_iff]
    left
    rw [beq_eq_false_iff_ne]
    intro hEq
    injection hEq with h1 _
    exact hne h1

theorem fmt02_lt100_gold {n : Nat} (h : n < 100) :
    matchesChunkGold ("chunk_" ++ fmt02 n) = true := by
  revert n
  decide

theorem processSentence_ok {fd : FrameData} {fp : Bool} {s : Sentence}
    {lu : String} {sid : Int} {text : String}
    (hlu : s.lu = some lu) (hid : s.id = some sid) (htext : s.text = some text)
    (hwf : ∀ ents, s.linked_entities = some ents →
      ∀ e ∈ ents, e.chunk.isSome ∧ e.types.isSome) :
    ∃ o, processSentence fd fp s = .ok o := by
  rcases hents : s.linked_entities with _ | ents
  · exact ⟨none, processSentence_no_entities hlu hid htext hents⟩
  by_cases hne : ents.isEmpty
  · exact ⟨none, by simp only [processSentence, hlu, hid, htext, hents, if_pos hne]⟩
  obtain ⟨cs, hch⟩ : ∃ cs, (if fp then chunksFiltered ents else allChunks ents) = .ok cs := by
    cases fp
    · exact ⟨_, by simpa using allChunks_ok (fun e he => (hwf ents hents e he).1)⟩
    · simpa using chunksFiltered_ok (hwf ents hents)
  by_cases hce : cs.isEmpty
  · exact ⟨none, by
      simp only [processSentence, hlu, hid, htext, hents, if_neg hne, hch, if_pos hce]⟩
  rcases hfr : List.lookup lu fd with _ | frame
  · exact ⟨none, by
      simp only [processSentence, hlu, hid, htext, hents, if_neg hne, hch, if_neg hce, hfr]⟩
  · exact ⟨_, processSentence_emit hlu hid htext hents
      (by simpa [List.isEmpty_iff] using hne) hch
      (by simpa [List.isEmpty_iff] using hce) hfr⟩

/-! ### Claims -/

/-- **C5**: a sentence record whose `linked_entities` key is absent produces
no data unit, and processing continues with the next sentence. -/
theorem C5_missing_linked_entities (s : Sentence) (rest : List Sentence)
    (fd : FrameData) (fp : Bool) (lu : String) (sid : Int) (text : String)
    (hlu : s.lu = some lu) (hid : s.id = some sid) (htext : s.text = some text)
    (hents : s.linked_entities = none) :
    processSentence fd fp s = .ok none ∧
    prepare_crowdflower_input (s :: rest) fd fp = prepare_crowdflower_input rest fd fp := by
  have h : processSentence fd fp s = .ok none :=
    processSentence_no_entities hlu hid htext hents
  exact ⟨h, prepare_cons_none h⟩

theorem C5_witness :
    processSentence [] true { id := some 1, text := some "t", lu := some "l" } = .ok none ∧
    prepare_crowdflower_input [{ id := some 1, text := some "t", lu := some "l" }] [] true
      = prepare_crowdflower_input [] [] true :=
  C5_missing_linked_entities { id := some 1, text := some "t", lu := some "l" }
    [] [] true "l" 1 "t" rfl rfl rfl rfl

/-- **C6**: a sentence whose lexical unit has no entry in the frame-data
mapping produces no data unit and raises no error; the loop moves on to the
remaining sentences. -/
theorem C6_missing_frame (s : Sentence) (rest : List Sentence) (fd : FrameData)
    (fp : Bool) (lu : String) (sid : Int) (text : String)
    (hlu : s.lu = some lu) (hid : s.id = some sid) (htext : s.text = some text)
    (hwf : ∀ ents, s.linked_entities = some ents →
      ∀ e ∈ ents, e.chunk.isSome ∧ e.types.isSome)
    (hfr : List.lookup lu fd = none) :
    processSentence fd fp s = .ok none ∧
    prepare_crowdflower_input (s :: rest) fd fp = prepare_crowdflower_input rest fd fp := by
  have h : processSentence fd fp s = .ok none :=
    processSentence_no_frame hlu hid htext hwf hfr
  exact ⟨h, prepare_cons_none h⟩

theorem C6_witness :
    processSentence [] false
      { id := some 2, text := some "t", lu := some "x",
        linked_entities := some [{ chunk := some "c", types := some [] }] } = .ok none ∧
    prepare_crowdflower_input
      [{ id := some 2, text := some "t", lu := some "x",
         linked_entities := some [{ chunk := some "c", types := some [] }] }] [] false
      = prepare_crowdflower_input [] [] false :=
  C6_missing_frame _ [] [] false "x" 2 "t" rfl rfl rfl
    (by
      intro ents hents e he
      cases hents
      rcases List.mem_singleton.mp he with rfl
      exact ⟨rfl, rfl⟩)
    rfl

/-- **C4 (counterexample)**: the claim says a missing key in a sentence
record never aborts the batch, but a sentence record without the `lu` key
makes `prepare_crowdflower_input` raise `KeyError: lu` instead of emitting
anything. -/
theorem C4_missing_key_aborts :
    prepare_crowdflower_input [({} : Sentence)] [] false = .error "KeyError: lu" := rfl

/-- **C4 (amended)**: the three documented failure conditions (missing
`linked_entities`, empty chunk list after filtering, missing frame data)
never raise: whenever every sentence carries the `lu`, `id` and `text` keys
and every present entity carries `chunk` and `types`, the whole batch
returns `.ok`, whatever the frame data and the filtering flag. -/
theorem C4_skip_conditions_no_error (sentences : List Sentence) (fd : FrameData)
    (fp : Bool)
    (hwf : ∀ s ∈ sentences, s.lu.isSome ∧ s.id.isSome ∧ s.text.isSome ∧
      ∀ ents, s.linked_entities = some ents →
        ∀ e ∈ ents, e.chunk.isSome ∧ e.types.isSome) :
    ∃ units, prepare_crowdflower_input sentences fd fp = .ok units := by
  induction sentences with
  | nil => exact ⟨[], rfl⟩
  | cons s rest ih =>
    obtain ⟨units, hu⟩ := ih (fun s' hs' => hwf s' (List.mem_cons_of_mem _ hs'))
    obtain ⟨hlu, hid, htext, hen⟩ := hwf s (List.mem_cons_self _ _)
    rcases hlu' : s.lu with _ | lu
    · rw [hlu'] at hlu; simp at hlu
    rcases hid' : s.id with _ | sid
    · rw [hid'] at hid; simp at hid
    rcases htext' : s.text with _ | text
    · rw [htext'] at htext; simp at htext
    obtain ⟨o, ho⟩ := @processSentence_ok fd fp s lu sid text hlu' hid' htext' hen
    rcases o with _ | v
    · exact ⟨units, by simp only [prepare_crowdflower_input, ho, hu]⟩
    · exact ⟨encodeUnit v :: units, by simp only [prepare_crowdflower_input, ho, hu]⟩

theorem C4_witness :
    ∃ units, prepare_crowdflower_input
      [{ id := some 1, text := some "t", lu := some "l" },
       { id := some 2, text := some "u", lu := some "m",
         linked_entities := some [{ chunk := some "c", types := some [] }] }] [] true
      = .ok units :=
  C4_skip_conditions_no_error _ _ _
    (by
      intro s hs
      rcases List.mem_cons.mp hs with rfl | hs
      · exact ⟨rfl, rfl, rfl, by intro ents h; cases h⟩
      rcases List.mem_singleton.mp hs with rfl
      refine ⟨rfl, rfl, rfl, ?_⟩
      intro ents hents e he
      cases hents
      rcases List.mem_singleton.mp he with rfl
      exact ⟨rfl, rfl⟩)

/-- **C8**: the output sequence follows the input sentence order: conversion
is a homomorphism for list append, a surviving sentence contributes exactly
its own (encoded) unit, and a skipped sentence contributes nothing. -/
theorem C8_output_order (fd : FrameData) (fp : Bool) :
    (∀ xs ys a b, prepare_crowdflower_input xs fd fp = .ok a →
      prepare_crowdflower_input ys fd fp = .ok b →
      prepare_crowdflower_input (xs ++ ys) fd fp = .ok (a ++ b)) ∧
    (∀ s u, processSentence fd fp s = .ok (some u) →
      prepare_crowdflower_input [s] fd fp = .ok [encodeUnit u]) ∧
    (∀ s, processSentence fd fp s = .ok none →
      prepare_crowdflower_input [s] fd fp = .ok []) := by
  refine ⟨?_, ?_, ?_⟩
  · intro xs
    induction xs with
    | nil =>
      intro ys a b ha hb
      simp only [prepare_crowdflower_input] at ha
      cases ha
      simpa using hb
    | cons s rest ih =>
      intro ys a b ha hb
      simp only [prepare_crowdflower_input] at ha
      simp only [List.cons_append, prepare_crowdflower_input]
      rcases hps : processSentence fd fp s with err | _ | v <;> simp only [hps] at ha ⊢
      · cases ha
      · exact ih ys a b ha hb
      · rcases hr : prepare_crowdflower_input rest fd fp with err | tail <;>
          simp only [hr] at ha
        · cases ha
        cases ha
        simp only [List.append_eq]
        rw [ih ys tail b hr hb]
        simp
  · intro s u h
    simp only [prepare_crowdflower_input, h]
  · intro s h
    simp only [prepare_crowdflower_input, h]

theorem C8_witness :
    prepare_crowdflower_input
      [{ id := some 1, text := some "The cat sat.", lu := some "sit.v",
         linked_entities := some [{ chunk := some "cat", types := some [] }] }]
      [("sit.v", ⟨"Posture", [⟨"Agent"⟩], []⟩)] false
      = .ok [encodeUnit [("id", "1"), ("sentence", "The cat sat."), ("lu", "sit.v"),
        ("frame", "Posture"), ("fe_00", "Agent"), ("chunk_00", "cat")]] :=
  (C8_output_order [("sit.v", ⟨"Posture", [⟨"Agent"⟩], []⟩)] false).2.1
    { id := some 1, text := some "The cat sat.", lu := some "sit.v",
      linked_entities := some [{ chunk := some "cat", types := some [] }] }
    [("id", "1"), ("sentence", "The cat sat."), ("lu", "sit.v"),
     ("frame", "Posture"), ("fe_00", "Agent"), ("chunk_00", "cat")]
    (by rfl)

/-- The example sentence of the specification (section 8). -/
def exSentence : Sentence :=
  { id := some 1, text := some "The cat sat.", lu := some "sit.v",
    linked_entities := some [{ chunk := some "cat", types := some [] }] }

/-- The example sentence with its entity typed as a place. -/
def exPlace : Sentence :=
  { id := some 1, text := some "The cat sat.", lu := some "sit.v",
    linked_entities := some [{ chunk := some "cat", types := some [PLACE_TYPE] }] }

/-- The example frame data of the specification (section 8). -/
def exFrames : FrameData := [("sit.v", ⟨"Posture", [⟨"Agent"⟩], []⟩)]

/-- The data unit the example sentence produces, before UTF-8 encoding. -/
def exUnit : StrDict :=
  [("id", "1"), ("sentence", "The cat sat."), ("lu", "sit.v"),
   ("frame", "Posture"), ("fe_00", "Agent"), ("chunk_00", "cat")]

example : processSentence exFrames false exSentence = .ok (some exUnit) := rfl

/-- **C1**: for a sentence with at least one linked entity, if
`filter_places` is on and every entity is typed as a place the sentence
yields no data unit; with `filter_places` off the same sentence yields a
unit whose `chunk_NN` columns list every entity's chunk, one per entity,
in order. -/
theorem C1_place_filtering (s : Sentence) (rest : List Sentence) (fd : FrameData)
    (lu : String) (sid : Int) (text : String) (ents : List Entity)
    (hlu : s.lu = some lu) (hid : s.id = some sid) (htext : s.text = some text)
    (hents : s.linked_entities = some ents) (hne : ents ≠ []) :
    ((∀ e ∈ ents, e.chunk.isSome ∧ ∃ ts, e.types = some ts ∧ PLACE_TYPE ∈ ts) →
      processSentence fd true s = .ok none ∧
      prepare_crowdflower_input (s :: rest) fd true
        = prepare_crowdflower_input rest fd true) ∧
    (∀ chunks frame, allChunks ents = .ok chunks → List.lookup lu fd = some frame →
      chunks.length = ents.length ∧
      ∃ u, processSentence fd false s = .ok (some u) ∧
        (encodeUnit u).filter (fun kv => strStarts "chunk_" kv.1)
          = chunks.enum.map (fun p => ("chunk_" ++ fmt02 p.1, utf8Encode p.2))) := by
  constructor
  · intro hall
    have hch : chunksFiltered ents = .ok [] := chunksFiltered_all_places hall
    have h : processSentence fd true s = .ok none :=
      processSentence_empty_chunks hlu hid htext hents (by simpa using hch)
    exact ⟨h, prepare_cons_none h⟩
  · intro chunks frame hch hfr
    have hlen : chunks.length = ents.length := allChunks_length hch
    have hcne : chunks ≠ [] := by
      intro hc
      subst hc
      exact hne (List.length_eq_zero.mp hlen.symm)
    have hch' : (if false then chunksFiltered ents else allChunks ents) = .ok chunks := by
      simpa using hch
    exact ⟨hlen, _, processSentence_emit hlu hid htext hents hne hch' hcne hfr,
      encodeUnit_filter_chunk sid text lu frame chunks⟩

theorem C1_witness :
    (processSentence exFrames true exPlace = .ok none ∧
     prepare_crowdflower_input [exPlace] exFrames true
       = prepare_crowdflower_input [] exFrames true) ∧
    ∃ u, processSentence exFrames false exPlace = .ok (some u) := by
  have h := C1_place_filtering exPlace [] exFrames "sit.v" 1 "The cat sat."
    [{ chunk := some "cat", types := some [PLACE_TYPE] }] rfl rfl rfl rfl (by simp)
  refine ⟨h.1 ?_, ?_⟩
  · intro e he
    rcases List.mem_singleton.mp he with rfl
    exact ⟨rfl, [PLACE_TYPE], rfl, by simp⟩
  · obtain ⟨_, u, hu, _⟩ := h.2 ["cat"] ⟨"Posture", [⟨"Agent"⟩], []⟩ rfl rfl
    exact ⟨u, hu⟩

/-- **C2**: every emitted data unit carries one `fe_NN` column per frame
element of the looked-up frame, indexed in the order core elements then
extra elements, `%02d`-formatted from `00`, each value being the element
name with underscores replaced by spaces (then UTF-8 encoded). -/
theorem C2_fe_columns (fd : FrameData) (fp : Bool) (s : Sentence) (u : StrDict)
    (lu : String) (frame : Frame)
    (h : processSentence fd fp s = .ok (some u))
    (hlu : s.lu = some lu) (hfr : List.lookup lu fd = some frame) :
    (encodeUnit u).filter (fun kv => strStarts "fe_" kv.1)
      = (frame.core_fes ++ frame.extra_fes).enum.map
          (fun p => ("fe_" ++ fmt02 p.1, utf8Encode (replaceUnderscores p.2.fe))) := by
  obtain ⟨lu', sid, text, ents, chunks, frame', hlu', hid', htext', hents', hne', hch', hcne',
    hfr', hu⟩ := processSentence_ok_some h
  have hl := hlu.symm.trans hlu'
  injection hl with hl
  subst hl
  have hf := hfr.symm.trans hfr'
  injection hf with hf
  subst hf
  subst hu
  exact encodeUnit_filter_fe sid text lu frame chunks

theorem C2_witness :
    (encodeUnit exUnit).filter (fun kv => strStarts "fe_" kv.1)
      = (([⟨"Agent"⟩] : List FE) ++ ([] : List FE)).enum.map
          (fun p => ("fe_" ++ fmt02 p.1, utf8Encode (replaceUnderscores p.2.fe))) :=
  C2_fe_columns exFrames false exSentence exUnit "sit.v" ⟨"Posture", [⟨"Agent"⟩], []⟩
    (by rfl) rfl rfl

theorem encodeUnit_keys (w : StrDict) :
    (encodeUnit w).map Prod.fst = w.map Prod.fst := by
  simp [encodeUnit, List.map_map, Function.comp]

/-- **C9**: every emitted data unit has the `id`, `sentence`, `lu`, `frame`
and `chunk_00` columns; its `id` value is the UTF-8 encoding of the decimal
rendering of the sentence's integer id; it has exactly
`core_fes.length + extra_fes.length` `fe_` columns for the looked-up frame;
and every value in it is the UTF-8 encoding of some text. -/
theorem C9_unit_invariants (sentences : List Sentence) (fd : FrameData) (fp : Bool)
    (units : List DataUnit) (u : DataUnit)
    (hp : prepare_crowdflower_input sentences fd fp = .ok units) (hu : u ∈ units) :
    ("id" ∈ u.map Prod.fst ∧ "sentence" ∈ u.map Prod.fst ∧ "lu" ∈ u.map Prod.fst ∧
      "frame" ∈ u.map Prod.fst ∧ "chunk_00" ∈ u.map Prod.fst) ∧
    (∃ s ∈ sentences, ∃ sid, s.id = some sid ∧
      List.lookup "id" u = some (utf8Encode (decimalInt sid))) ∧
    (∃ lu frame, List.lookup lu fd = some frame ∧
      (u.filter (fun kv => strStarts "fe_" kv.1)).length
        = frame.core_fes.length + frame.extra_fes.length) ∧
    (∀ kv ∈ u, ∃ t : String, kv.2 = utf8Encode t) := by
  obtain ⟨s, hs, v, hv, rfl⟩ := mem_prepare hp u hu
  obtain ⟨lu, sid, text, ents, chunks, frame, hlu, hid, htext, hents, hne, hch, hcne, hfr,
    rfl⟩ := processSentence_ok_some hv
  rcases chunks with _ | ⟨c0, cs⟩
  · exact absurd rfl hcne
  have hkey : ("chunk_" ++ fmt02 0 : String) = "chunk_00" := by decide
  refine ⟨⟨?_, ?_, ?_, ?_, ?_⟩, ⟨s, hs, sid, hid, ?_⟩, ⟨lu, frame, hfr, ?_⟩, ?_⟩
  · rw [encodeUnit_keys]; simp
  · rw [encodeUnit_keys]; simp
  · rw [encodeUnit_keys]; simp
  · rw [encodeUnit_keys]; simp
  · rw [encodeUnit_keys]
    have hmem : ("chunk_" ++ fmt02 0, c0) ∈ chunkEntries (c0 :: cs) := by
      rw [show chunkEntries (c0 :: cs) = ("chunk_" ++ fmt02 0, c0) ::
        ((cs.enumFrom 1).map (fun p => ("chunk_" ++ fmt02 p.1, p.2))) from rfl]
      exact List.mem_cons_self _ _
    have : "chunk_00" ∈ (chunkEntries (c0 :: cs)).map Prod.fst := by
      rw [← hkey]
      exact List.mem_map.mpr ⟨_, hmem, rfl⟩
    simp only [List.map_cons, List.map_append, List.mem_cons, List.mem_append]
    exact Or.inr (Or.inr (Or.inr (Or.inr (Or.inr this))))
  · simp [encodeUnit, List.lookup]
  · rw [encodeUnit_filter_fe]
    simp
  · intro kv hkv
    obtain ⟨p, _, hp'⟩ := List.mem_map.mp hkv
    exact ⟨p.2, by rw [← hp']⟩

theorem C9_witness :
    "chunk_00" ∈ (encodeUnit exUnit).map Prod.fst :=
  (C9_unit_invariants [exSentence] exFrames false [encodeUnit exUnit] (encodeUnit exUnit)
    (by rfl) (by simp)).1.2.2.2.2

/-- **C7**: the spreadsheet writer returns status code 0 and produces one
row per data unit, in list order; a cell is blank (`none`) exactly when the
unit lacks that header's key. -/
theorem C7_spreadsheet_rows (units : List DataUnit) :
    (write_input_spreadsheet units).2 = 0 ∧
    (write_input_spreadsheet units).1.rows.length = units.length ∧
    (∀ i : Nat, (write_input_spreadsheet units).1.rows[i]? =
      (units[i]?).map (fun d => (write_input_spreadsheet units).1.header.map
        (fun h => List.lookup h d))) ∧
    (∀ (d : DataUnit) (h : String), List.lookup h d = none ↔ h ∉ d.map Prod.fst) := by
  refine ⟨rfl, by simp [write_input_spreadsheet], ?_, ?_⟩
  · intro i
    simp [write_input_spreadsheet]
  · intro d h
    simp only [List.lookup_eq_none_iff, List.mem_map]
    constructor
    · rintro hall ⟨p, hp, hph⟩
      have := hall p hp
      rw [hph] at this
      simp at this
    · intro hnm p hp
      rcases eq_or_ne h p.1 with rfl | hne
      · exact absurd ⟨p, hp, rfl⟩ hnm
      · simpa using hne

/-- **C3**: the header list is lexicographically sorted and consists of the
union of all unit keys, plus `_golden`, plus a `_gold` companion for every
header ending in `chunk_` and two digits; concretely `_golden` precedes
`chunk_00`, which precedes `fe_00`. -/
theorem C3_headers (units : List DataUnit) :
    List.Sorted strLeR (write_input_spreadsheet units).1.header ∧
    (∀ h : String, h ∈ (write_input_spreadsheet units).1.header ↔
      ((∃ d ∈ units, h ∈ d.map Prod.fst) ∨ h = "_golden" ∨
       (∃ c : String, ((∃ d ∈ units, c ∈ d.map Prod.fst) ∨ c = "_golden") ∧
          matchesChunkGold c = true ∧ h = c ++ "_gold"))) ∧
    (write_input_spreadsheet [[("chunk_00", [99]), ("fe_00", [100])]]).1.header
      = ["_golden", "chunk_00", "chunk_00_gold", "fe_00"] := by
  refine ⟨List.sorted_insertionSort _ _, ?_, by decide⟩
  intro h
  simp only [write_input_spreadsheet, write_headers, List.mem_insertionSort, List.mem_append,
    List.mem_insert_iff, collectKeys, List.mem_dedup, List.mem_flatMap, List.mem_map,
    List.mem_filter]
  constructor
  · rintro ((rfl | hk) | ⟨c, ⟨hc, hmc⟩, rfl⟩)
    · exact Or.inr (Or.inl rfl)
    · exact Or.inl hk
    · exact Or.inr (Or.inr ⟨c, hc.elim (fun x => Or.inr x) (fun x => Or.inl x), hmc, rfl⟩)
  · rintro (hk | rfl | ⟨c, hc, hmc, rfl⟩)
    · exact Or.inl (Or.inr hk)
    · exact Or.inl (Or.inl rfl)
    · exact Or.inr ⟨c, ⟨hc.elim (fun x => Or.inr x) (fun x => Or.inl x), hmc⟩, rfl⟩

/-- **C10**: an index of 100 or more makes `%02d` produce three or more
digits, such a `chunk_` key no longer matches `chunk_[0-9]{2}$`, so no
`_gold` companion is generated for it; the companion guarantee holds
exactly for indices 0 through 99. -/
theorem C10_gold_only_two_digits :
    ("chunk_" ++ fmt02 100 = "chunk_100") ∧
    (∀ n, 100 ≤ n → 3 ≤ (fmt02 n).length) ∧
    (∀ n, 100 ≤ n → matchesChunkGold ("chunk_" ++ fmt02 n) = false) ∧
    (∀ n, n < 100 → matchesChunkGold ("chunk_" ++ fmt02 n) = true) ∧
    "chunk_100_gold" ∉ write_headers [[("chunk_100", [])]] ∧
    "chunk_99_gold" ∈ write_headers [[("chunk_99", [])]] := by
  refine ⟨by decide, ?_, fun n h => fmt02_ge100_no_gold h, fun n h => fmt02_lt100_gold h,
    by decide, by decide⟩
  intro n h
  have hf : fmt02 n = decimalNat n := if_neg (by omega)
  rw [hf]
  exact decimalAux_length_ge3 (by omega) h

theorem C10_witness :
    3 ≤ (fmt02 123).length ∧ matchesChunkGold ("chunk_" ++ fmt02 123) = false ∧
    matchesChunkGold ("chunk_" ++ fmt02 7) = true :=
  ⟨C10_gold_only_two_digits.2.1 123 (by decide),
   C10_gold_only_two_digits.2.2.1 123 (by decide),
   C10_gold_only_two_digits.2.2.2.1 7 (by decide)⟩

theorem C7_witness :
    (write_input_spreadsheet [[("chunk_00", [99])], []]).2 = 0 ∧
    (write_input_spreadsheet [[("chunk_00", [99])], []]).1.rows.length = 2 :=
  ⟨(C7_spreadsheet_rows [[("chunk_00", [99])], []]).1,
   (C7_spreadsheet_rows [[("chunk_00", [99])], []]).2.1⟩

theorem C3_witness :
    "_golden" ∈ (write_input_spreadsheet []).1.header :=
  ((C3_headers []).2.1 "_golden").mpr (Or.inr (Or.inl rfl))

end CrowdflowerInput
